import Mathlib

/-!
Verification of the voxel-based geometry pipeline of
`openpnm/materials/_voronoi_fibers.py` (class `DelaunayGeometry` and the
`VoronoiFibers` constructor).

The Python code is shallowly embedded below.  Conventions used throughout:

* machine floats that hold exact decimal/integer data are modelled as `ℚ`
  (all quantities compared in the claims are produced by exact integer or
  short-decimal arithmetic, so `ℚ` is faithful);
* `numpy` `NaN` entries (missing centroids) are modelled as `Option`,
  with `none` playing the role of `NaN`; `NaN` propagation through
  arithmetic is the `Option.map₂` propagation;
* external library calls (`scipy.spatial.ConvexHull` simplex lists,
  `skimage.measure.regionprops` region data, the rotation matrices of
  `transforms3d`, `numpy.linalg.norm`) are treated as oracle inputs: the
  embedding is parametrised by their outputs, never by the spec's words;
* `scipy.ndimage.distance_transform_edt` returns, at each voxel, the
  Euclidean distance to the nearest zero voxel.  Comparisons of such a
  distance with a threshold `r` are encoded without square roots via
  `sqrt s ≤ r ↔ 0 ≤ r ∧ s ≤ r ^ 2` (`s` the exact squared distance);
  the bridging fact is proved over `ℝ` in `sqrt_le_iff_sq_le` below.
-/

/-- 3-vectors of rationals (physical or voxel coordinates). -/
abbrev V3 : Type := ℚ × ℚ × ℚ

/-- Integer voxel index triple. -/
abbrev Cell : Type := ℤ × ℤ × ℤ

def dot3 (a b : V3) : ℚ :=
  a.1 * b.1 + a.2.1 * b.2.1 + a.2.2 * b.2.2

def vsub3 (a b : V3) : V3 :=
  (a.1 - b.1, a.2.1 - b.2.1, a.2.2 - b.2.2)

def vadd3 (a b : V3) : V3 :=
  (a.1 + b.1, a.2.1 + b.2.1, a.2.2 + b.2.2)

def vneg3 (a : V3) : V3 :=
  (-a.1, -a.2.1, -a.2.2)

/-- `numpy.cross` of two 3-vectors. -/
def cross3 (a b : V3) : V3 :=
  (a.2.1 * b.2.2 - a.2.2 * b.2.1,
   a.2.2 * b.1 - a.1 * b.2.2,
   a.1 * b.2.1 - a.2.1 * b.1)

/-- `min` of a list of rationals (`numpy.min`; `0` for the empty list,
which the Python code never passes). -/
def listMin : List ℚ → ℚ
  | [] => 0
  | x :: xs => xs.foldl min x

/-- `max` of a list of rationals (`numpy.max`; `0` for the empty list,
which the Python code never passes). -/
def listMax : List ℚ → ℚ
  | [] => 0
  | x :: xs => xs.foldl max x

/-- `numpy.around(q, 0)`: round to the nearest integer, ties to even. -/
def roundHalfEven (q : ℚ) : ℤ :=
  if q - ⌊q⌋ < 1/2 then ⌊q⌋
  else if 1/2 < q - ⌊q⌋ then ⌊q⌋ + 1
  else if Even ⌊q⌋ then ⌊q⌋ else ⌊q⌋ + 1

/-- The default tolerance of `DelaunayGeometry.inhull` (`tol=1e-7`). -/
def tol7 : ℚ := 1 / 10000000

/-! ## FiberSpaceBuilder: `DelaunayGeometry._get_fiber_image`

`fiber_rad = np.around((fiber_rad - (vox_len / 2)) / vox_len, 0).astype(int)`
converts the physical fiber radius to voxel units.  Each (chunk of the)
domain then gets a Euclidean distance transform `dtc` of the seed volume and

    fiber_space[...][dtc <= fiber_rad] = 0
    fiber_space[...][dtc > fiber_rad] = 1
    dt[...] = dtc - fiber_rad      -- later: dt[dt < 0] = 0
-/

/-- Voxel-unit fiber radius, line 617 of `_voronoi_fibers.py`. -/
def fiberRadVoxels (fiber_rad vox_len : ℚ) : ℤ :=
  roundHalfEven ((fiber_rad - vox_len / 2) / vox_len)

/-- One voxel of the fiber-phase volume after the two masked writes
`[dtc <= r] = 0` then `[dtc > r] = 1`; `old` is the voxel's previous value
(the arrays start at `0`, and chunks overwrite).  `d` is the distance-
transform value at the voxel. -/
def fiberVal (old : ℕ) (d : ℚ) (r : ℤ) : ℕ :=
  let afterLE : ℕ := if d ≤ (r : ℚ) then 0 else old
  if (r : ℚ) < d then 1 else afterLE

/-- One voxel of the retained distance field: `dt = dtc - fiber_rad`
per chunk, then `dt[dt < 0] = 0` at the end of `_get_fiber_image`. -/
def dtVal (d : ℚ) (r : ℤ) : ℚ :=
  let x : ℚ := d - (r : ℚ)
  if x < 0 then 0 else x

/-! ### The chunked code path (lines 634-707)

On allocation failure the domain of `lx × ly × lz` voxels is cut into
chunks of edge `chunk_len = 100`; chunk `(ci, cj, ck)` processes the
half-open window `[ci*L, (ci+1)*L + 5*r) ∩ [0, lx)` (and likewise for y, z):
the `5*r` halo is added on the high side only, and the whole window —
halo included — is written back, so later chunks overwrite earlier ones.
The unchunked path is the same loop with `cx = cy = cz = 1` and
`chunk_len = max(lx, ly, lz)`.

`scipy.ndimage.distance_transform_edt` of a chunk's slice sees only the
seed voxels inside that slice.  The comparison `dtc ≤ r` of the float
distance with the integer radius is encoded on exact squared distances as
`0 ≤ r ∧ sqd ≤ r²` (see `sqrt_le_iff_sq_le`); a window with no seed gets
an infinite distance (`none`), which compares `> r`. -/

/-- Squared Euclidean distance between voxel indices. -/
def sqd3 (a b : Cell) : ℤ :=
  (a.1 - b.1) ^ 2 + (a.2.1 - b.2.1) ^ 2 + (a.2.2 - b.2.2) ^ 2

/-- A half-open axis-aligned window of voxels. -/
structure Win where
  lo : Cell
  hi : Cell

def inWin (w : Win) (c : Cell) : Bool :=
  decide (w.lo.1 ≤ c.1 ∧ c.1 < w.hi.1) &&
  decide (w.lo.2.1 ≤ c.2.1 ∧ c.2.1 < w.hi.2.1) &&
  decide (w.lo.2.2 ≤ c.2.2 ∧ c.2.2 < w.hi.2.2)

/-- Squared distance-transform value of the slice `w` of the seed volume at
voxel `c`: least squared distance to a seed lying inside `w` (`none` when
the slice holds no seed). -/
def edtSq (seeds : List Cell) (w : Win) (c : Cell) : Option ℤ :=
  ((seeds.filter (inWin w)).map (sqd3 c)).min?

/-- `sqrt d ≤ r` on the exact squared distance (`none` = no seed in the
slice, infinite distance). -/
def edtLE (d : Option ℤ) (r : ℤ) : Bool :=
  match d with
  | some s => decide (0 ≤ r) && decide (s ≤ r ^ 2)
  | none => false

/-- The fiber-phase value written at a voxel by one chunk, squared-distance
encoding of `fiberVal` (`dtc > r` is `¬ (dtc ≤ r)`). -/
def fiberValSq (old : ℕ) (d : Option ℤ) (r : ℤ) : ℕ :=
  let afterLE : ℕ := if edtLE d r then 0 else old
  if !(edtLE d r) then 1 else afterLE

/-- Window of chunk `(ci, cj, ck)`: low edge `ci * L`, high edge
`min ((ci+1) * L + 5r) lx` (the code clamps with "Don't overshoot"). -/
def chunkWin (L : ℕ) (r : ℤ) (dims : ℕ × ℕ × ℕ) (t : ℕ × ℕ × ℕ) : Win :=
  { lo := ((t.1 : ℤ) * L, (t.2.1 : ℤ) * L, (t.2.2 : ℤ) * L)
    hi := (min ((t.1 + 1 : ℤ) * L + 5 * r) (dims.1 : ℤ),
           min ((t.2.1 + 1 : ℤ) * L + 5 * r) (dims.2.1 : ℤ),
           min ((t.2.2 + 1 : ℤ) * L + 5 * r) (dims.2.2 : ℤ)) }

/-- The chunk triples in the loop order of the code (`ci` outermost). -/
def chunkTriples (cx cy cz : ℕ) : List (ℕ × ℕ × ℕ) :=
  (List.range cx).flatMap fun i =>
    (List.range cy).flatMap fun j =>
      (List.range cz).map fun k => (i, j, k)

/-- The fiber-phase volume produced by running the per-chunk loop over
`triples`: starts all `0`, each chunk overwrites its whole window with the
classification taken from its own slice's distance transform. -/
def fiberChunks (seeds : List Cell) (dims : ℕ × ℕ × ℕ) (L : ℕ) (r : ℤ)
    (triples : List (ℕ × ℕ × ℕ)) : Cell → ℕ :=
  triples.foldl
    (fun img t => fun c =>
      let w := chunkWin L r dims t
      if inWin w c then fiberValSq (img c) (edtSq seeds w c) r else img c)
    (fun _ => 0)

/-- `ceil(lx / chunk_len)` when `lx > chunk_len`, else one chunk. -/
def numChunksAxis (lx L : ℕ) : ℕ :=
  if L < lx then (lx + L - 1) / L else 1

/-- The unchunked (single full-domain) path: the try-branch sets
`cx = cy = cz = 1` and `chunk_len = max(np.shape(pore_space))`. -/
def getFiberImageFull (seeds : List Cell) (dims : ℕ × ℕ × ℕ) (r : ℤ) :
    Cell → ℕ :=
  fiberChunks seeds dims (max dims.1 (max dims.2.1 dims.2.2)) r [(0, 0, 0)]

/-- The chunked fallback path with chunk edge `L` (the code fixes
`chunk_len = 100`). -/
def getFiberImageChunked (seeds : List Cell) (dims : ℕ × ℕ × ℕ) (L : ℕ)
    (r : ℤ) : Cell → ℕ :=
  fiberChunks seeds dims L r
    (chunkTriples (numChunksAxis dims.1 L) (numChunksAxis dims.2.1 L)
      (numChunksAxis dims.2.2 L))

/-! ### Seeding (lines 663-671)

    for x, y, z in line_ints:
        try:
            pore_space[x][y][z] = 0
        except IndexError:
            logger.warning(...)

`numpy` raises `IndexError` only when a coordinate lies outside
`[-L, L)`; a negative in-range coordinate wraps around to `L + x`. -/

def inNpRange (dims : ℕ × ℕ × ℕ) (p : Cell) : Bool :=
  decide (-(dims.1 : ℤ) ≤ p.1 ∧ p.1 < (dims.1 : ℤ)) &&
  decide (-(dims.2.1 : ℤ) ≤ p.2.1 ∧ p.2.1 < (dims.2.1 : ℤ)) &&
  decide (-(dims.2.2 : ℤ) ≤ p.2.2 ∧ p.2.2 < (dims.2.2 : ℤ))

def wrapIdx (dims : ℕ × ℕ × ℕ) (p : Cell) : Cell :=
  ((if p.1 < 0 then p.1 + dims.1 else p.1),
   (if p.2.1 < 0 then p.2.1 + dims.2.1 else p.2.1),
   (if p.2.2 < 0 then p.2.2 + dims.2.2 else p.2.2))

/-- Mark one seed point in the seed volume (`1` = pore space, `0` = seed);
out-of-range points raise `IndexError`, which the code catches and logs,
leaving the volume unchanged. -/
def markSeed (dims : ℕ × ℕ × ℕ) (img : Cell → ℕ) (p : Cell) : Cell → ℕ :=
  if inNpRange dims p then
    fun c => if c = wrapIdx dims p then 0 else img c
  else img

/-- Voxel index inside the bounds of the seed volume. -/
def inBounds (dims : ℕ × ℕ × ℕ) (p : Cell) : Prop :=
  (0 ≤ p.1 ∧ p.1 < (dims.1 : ℤ)) ∧
  (0 ≤ p.2.1 ∧ p.2.1 < (dims.2.1 : ℤ)) ∧
  (0 ≤ p.2.2 ∧ p.2.2 < (dims.2.2 : ℤ))

instance (dims : ℕ × ℕ × ℕ) (p : Cell) : Decidable (inBounds dims p) := by
  unfold inBounds; infer_instance

/-! ## HullVoxelizer: `DelaunayGeometry.inhull` / `in_hull_volume`

`inhull(xyz, pore, tol=1e-7)` (lines 470-527): the vertex coordinates
(already divided by the resolution) are shifted by their per-axis minimum
`origin`; `scipy.spatial.ConvexHull` supplies the simplex list (an oracle
here); each simplex gives a facet normal `cross(p0 - p1, p0 - p2)`,
flipped to point toward the centre of mass of all vertices; a voxel of the
pore's local window passes a facet when, with the unit normal `N = n/|n|`,
`dot(x, N) - dot(a, N) ≥ -tol`.  On exact rationals that inequality is
encoded square-root-free as `0 ≤ d ∨ d² ≤ tol² * |n|²` where
`d = dot(x, n) - dot(a, n)` (see `halfspace_encoding` below).

The per-voxel pass counter `dom` is a `uint8`, so it counts modulo 256;
the voxel is labelled when the counter equals the number of simplices. -/

/-- A pore as `inhull` receives it: its network label, its hull vertex
coordinates in voxel units (after `unique_list(np.around(verts, 6))` and
division by the resolution, and after `np.around(xyz, 10)`), and the
simplex index triples returned by `scipy.spatial.ConvexHull` (oracle). -/
structure PoreData where
  label : ℕ
  xyz : List V3
  simplices : List (ℕ × ℕ × ℕ)

def xsOf (l : List V3) : List ℚ := l.map fun v => v.1
def ysOf (l : List V3) : List ℚ := l.map fun v => v.2.1
def zsOf (l : List V3) : List ℚ := l.map fun v => v.2.2

/-- `origin = np.array([xmin, ymin, zmin])`. -/
def hullOrigin (xyz : List V3) : V3 :=
  (listMin (xsOf xyz), listMin (ysOf xyz), listMin (zsOf xyz))

/-- `si = np.floor(origin).astype(int)`. -/
def hullSi (xyz : List V3) : Cell :=
  (⌊listMin (xsOf xyz)⌋, ⌊listMin (ysOf xyz)⌋, ⌊listMin (zsOf xyz)⌋)

/-- `xr = (np.ceil(max) - np.floor(min)).astype(int) + 1` per axis. -/
def hullDims (xyz : List V3) : Cell :=
  (⌈listMax (xsOf xyz)⌉ - ⌊listMin (xsOf xyz)⌋ + 1,
   ⌈listMax (ysOf xyz)⌉ - ⌊listMin (ysOf xyz)⌋ + 1,
   ⌈listMax (zsOf xyz)⌉ - ⌊listMin (zsOf xyz)⌋ + 1)

/-- `xyz -= origin`. -/
def hullShifted (xyz : List V3) : List V3 :=
  xyz.map fun v => vsub3 v (hullOrigin xyz)

/-- `center = np.mean(xyz, axis=0)` (of the shifted vertices). -/
def mean3 (l : List V3) : V3 :=
  let s := l.foldl vadd3 (0, 0, 0)
  let n : ℚ := (l.length : ℚ)
  (s.1 / n, s.2.1 / n, s.2.2 / n)

/-- The (inward-oriented) normal and reference point of one simplex:
`n = cross(p0 - p1, p0 - p2)`, flipped when `dot(center - p0, n) < 0`. -/
def orientedFacet (pts : List V3) (center : V3) (s : ℕ × ℕ × ℕ) : V3 × V3 :=
  let p0 := pts.getD s.1 (0, 0, 0)
  let p1 := pts.getD s.2.1 (0, 0, 0)
  let p2 := pts.getD s.2.2 (0, 0, 0)
  let n := cross3 (vsub3 p0 p1) (vsub3 p0 p2)
  (if dot3 (vsub3 center p0) n < 0 then vneg3 n else n, p0)

/-- The half-space test of one facet at point `x`: with `d = dot(x, n) -
dot(a, n)`, the code's `dot(x, N) - dot(a, N) ≥ -tol` for the unit normal
`N` is exactly `0 ≤ d ∨ d² ≤ tol² * |n|²`. -/
def facetPass (tol : ℚ) (x : V3) (na : V3 × V3) : Bool :=
  let d : ℚ := dot3 x na.1 - dot3 na.2 na.1
  decide (0 ≤ d) || decide (d ^ 2 ≤ tol ^ 2 * dot3 na.1 na.1)

/-- Number of facets of pore `p` passed by local grid point `x`
(the `dom[...] += 1` accumulation). -/
def facetPassCount (tol : ℚ) (p : PoreData) (x : V3) : ℕ :=
  p.simplices.countP fun s =>
    facetPass tol x
      (orientedFacet (hullShifted p.xyz) (mean3 (hullShifted p.xyz)) s)

/-- Local (window-relative) coordinates of global voxel `g`: the code
evaluates the plane equations on `np.indices((xr, yr, zr))` and writes the
result back at offset `si`. -/
def localPt (p : PoreData) (g : Cell) : V3 :=
  ((g.1 - (hullSi p.xyz).1 : ℤ), ((g.2.1 - (hullSi p.xyz).2.1 : ℤ) : ℚ),
   ((g.2.2 - (hullSi p.xyz).2.2 : ℤ) : ℚ))

def inWindow3 (si dims g : Cell) : Bool :=
  decide (si.1 ≤ g.1 ∧ g.1 < si.1 + dims.1) &&
  decide (si.2.1 ≤ g.2.1 ∧ g.2.1 < si.2.1 + dims.2.1) &&
  decide (si.2.2 ≤ g.2.2 ∧ g.2.2 < si.2.2 + dims.2.2)

/-- Does `inhull(p.xyz, p.label)` set global voxel `g` to `p.label`?
The `uint8` counter makes the count modulo 256; `dom[dom < len] = 0;
dom[dom == len] = 1` then labels exactly the voxels whose counter equals
the simplex count. -/
def inhullLabels (tol : ℚ) (p : PoreData) (g : Cell) : Bool :=
  inWindow3 (hullSi p.xyz) (hullDims p.xyz) g &&
  decide (facetPassCount tol p (localPt p g) % 256 = p.simplices.length)

/-- `self._hull_image[temp_arr] = pore` for one pore, over the running
label image (`-1` = unassigned, as in the `int32` image the code builds). -/
def applyPore (tol : ℚ) (img : Cell → ℤ) (p : PoreData) : Cell → ℤ :=
  fun g => if inhullLabels tol p g then (p.label : ℤ) else img g

/-- The label volume after the per-pore loop of `in_hull_volume`. -/
def hullImage (tol : ℚ) (pores : List PoreData) : Cell → ℤ :=
  pores.foldl (applyPore tol) fun _ => (-1)

/-- `scipy.ndimage.maximum_filter(img, size=2)`: maximum over the window
of offsets `{-1, 0}` per axis (boundary handling does not matter for the
claims proved here; the grid is modelled as all of `ℤ³`). -/
def maxFilter2 (img : Cell → ℤ) (g : Cell) : ℤ :=
  let offs : List Cell :=
    [(-1, -1, -1), (-1, -1, 0), (-1, 0, -1), (-1, 0, 0),
     (0, -1, -1), (0, -1, 0), (0, 0, -1), (0, 0, 0)]
  (offs.map fun d => img (g.1 + d.1, g.2.1 + d.2.1, g.2.2 + d.2.2)).foldl
    max (img (g.1 - 1, g.2.1 - 1, g.2.2 - 1))

/-- The gap-fill pass of `in_hull_volume` (lines 548-551):
`mask = hull_image == -1; hull_image[mask] = max_h[mask]`. -/
def fillStep (img : Cell → ℤ) : Cell → ℤ :=
  fun g => if img g = -1 then maxFilter2 img g else img g

/-- The final label volume: per-pore hull labelling, then the
maximum-filter fill. -/
def finalHullImage (tol : ℚ) (pores : List PoreData) : Cell → ℤ :=
  fillStep (hullImage tol pores)

/-! ## ThroatFacetAnalyzer: `DelaunayGeometry._throat_props`

Per throat (lines 294-468) the facet vertices are rotated into the
`z = const` plane (rotation matrices from `transforms3d` — external; the
embedding takes the already rotated-and-projected 2D points `pts` and an
oracle `unrot` for the inverse mapping), translated so their minimum sits
at the origin, and scaled so the larger extent equals `res = 200`.  The
scaled fiber radius is `r = f * offset` with `f = 200 / max_factor`.

For `r ≤ res/2` the polygon is rasterised, padded by one pixel, filled by
`skimage.morphology.convex_hull_image` (oracle: the list `hullPix` of its
nonzero pixels, all of which lie in the interior of the padded image), and
eroded by zeroing distance-transform values `≤ r`.  With fewer than 3
surviving pixels, or more than one connected region
(`skimage.measure.regionprops`, an oracle), or fewer than 3 unique offset
vertices, the throat keeps the all-zero initial values; otherwise the
region properties are scaled back and stored.

The result record mirrors the per-throat slots of the arrays written at
lines 462-468; `offsetVerts = none` models the never-assigned entry of the
`dtype=object` array `eroded_verts` (no offset vertices). -/

structure TResult where
  area : ℚ
  perimeter : ℚ
  equivDiameter : ℚ
  inradius : ℚ
  centroid : V3
  incenter : V3
  offsetVerts : Option (List V3)
  deriving DecidableEq

/-- The initial per-throat values (`np.zeros` and the unset object
array): the "occluded zero result". -/
def zeroTResult : TResult :=
  { area := 0, perimeter := 0, equivDiameter := 0, inradius := 0,
    centroid := (0, 0, 0), incenter := (0, 0, 0), offsetVerts := none }

/-- Oracle data for one throat: outputs of the external image libraries. -/
structure TOracle where
  /-- Nonzero pixels of `convex_hull_image(img_pad)` (skimage). -/
  hullPix : List (ℤ × ℤ)
  /-- `len(regionprops(cropped))`. -/
  regionCount : ℕ
  /-- `props.centroid` of the single region. -/
  rpCentroid : ℚ × ℚ
  /-- `props.equivalent_diameter`. -/
  rpEquivDiam : ℚ
  /-- `props.area`. -/
  rpArea : ℚ
  /-- `props.perimeter`. -/
  rpPerimeter : ℚ
  /-- `props.coords`: the pixel coordinates of the single region. -/
  rpCoords : List (ℤ × ℤ)
  /-- Maximum of the second distance transform (the inradius, raster units). -/
  dtMax : ℚ
  /-- `np.unravel_index(dt.argmax(), dt.shape)`. -/
  dtArgmax : ℚ × ℚ
  /-- The single z-plane value of the rotated facet (after the
  rotation-failure averaging of lines 369-374). -/
  zplane : ℚ
  /-- Application of the inverse rotation matrix `MI[:3, :3].T`
  (`transforms3d`); the identity when no rotation was needed. -/
  unrot : V3 → V3

/-- `translation = [pts[:, 0].min(), pts[:, 1].min()]`. -/
def transOf (pts : List (ℚ × ℚ)) : ℚ × ℚ :=
  (listMin (pts.map fun p => p.1), listMin (pts.map fun p => p.2))

/-- `pts -= translation`. -/
def ptsT (pts : List (ℚ × ℚ)) : List (ℚ × ℚ) :=
  pts.map fun p => (p.1 - (transOf pts).1, p.2 - (transOf pts).2)

/-- `max_factor = np.max([pts[:, 0].max(), pts[:, 1].max()])` (translated). -/
def maxFactorOf (pts : List (ℚ × ℚ)) : ℚ :=
  max (listMax ((ptsT pts).map fun p => p.1))
    (listMax ((ptsT pts).map fun p => p.2))

/-- `f = res / max_factor` with `res = 200`. -/
def scaleFOf (pts : List (ℚ × ℚ)) : ℚ := 200 / maxFactorOf pts

/-- `r = f * offset`: the fiber radius in raster units. -/
def scaledROf (pts : List (ℚ × ℚ)) (offset : ℚ) : ℚ :=
  scaleFOf pts * offset

/-- `pts *= f`. -/
def ptsS (pts : List (ℚ × ℚ)) : List (ℚ × ℚ) :=
  (ptsT pts).map fun p => (scaleFOf pts * p.1, scaleFOf pts * p.2)

/-- First padded-image dimension: `img` has
`ceil(maxp1 - minp1) + 1` rows and `img_pad` adds one row on each side. -/
def padDimM (pts : List (ℚ × ℚ)) : ℤ :=
  ⌈listMax ((ptsS pts).map fun p => p.1) - listMin ((ptsS pts).map fun p => p.1)⌉ + 3

def padDimN (pts : List (ℚ × ℚ)) : ℤ :=
  ⌈listMax ((ptsS pts).map fun p => p.2) - listMin ((ptsS pts).map fun p => p.2)⌉ + 3

/-- `int_pts = np.around(pts, 0).astype(int)` (on the scaled points). -/
def intPtsOf (pts : List (ℚ × ℚ)) : List (ℤ × ℤ) :=
  (ptsS pts).map fun p => (roundHalfEven p.1, roundHalfEven p.2)

/-- All pixels of the padded image, row-major. -/
def pixList (M N : ℤ) : List (ℤ × ℤ) :=
  ((List.range M.toNat).product (List.range N.toNat)).map
    fun p => ((p.1 : ℤ), (p.2 : ℤ))

/-- 2D squared pixel distance. -/
def sqd2 (a b : ℤ × ℤ) : ℤ :=
  (a.1 - b.1) ^ 2 + (a.2 - b.2) ^ 2

/-- Does pixel `p` survive the erosion `eroded[eroded <= r] = 0`?  The
distance transform of `convhullimg` at `p` is the distance to the nearest
zero pixel, so `p` survives iff every background pixel `b` (a pixel of the
padded image not in `hullPix`) has `sqrt (sqd2 p b) > r`, i.e.
`r < 0 ∨ r² < sqd2 p b`. -/
def isSurvivor (hullPix : List (ℤ × ℤ)) (M N : ℤ) (r : ℚ) (p : ℤ × ℤ) :
    Bool :=
  (pixList M N).all fun b =>
    decide (b ∈ hullPix) || decide (r < 0) ||
      decide (r ^ 2 < ((sqd2 p b : ℤ) : ℚ))

/-- `np.sum(eroded)` after the thresholding: the survivor count. -/
def survivorCount (hullPix : List (ℤ × ℤ)) (M N : ℤ) (r : ℚ) : ℕ :=
  ((pixList M N).filter (isSurvivor hullPix M N r)).length

/-- `np.argmin(np.sum(np.square(coords - pt), axis=1))`: index of the
first closest region pixel to `pt`. -/
def argminIdx (coords : List (ℤ × ℤ)) (pt : ℤ × ℤ) : ℕ :=
  (coords.enum.foldl
    (fun best x =>
      if sqd2 x.2 pt < sqd2 (coords.getD best (0, 0)) pt then x.1 else best)
    0)

/-- The offset-vertex index list: one `argmin` per original vertex,
appended only when not already present (lines 416-420). -/
def dedupOffsets (coords : List (ℤ × ℤ)) (ipts : List (ℤ × ℤ)) : List ℕ :=
  ipts.foldl
    (fun acc pt =>
      let v := argminIdx coords pt
      if v ∈ acc then acc else acc ++ [v])
    []

/-- The full `_throat_props` result for one throat, given the projected 2D
facet points `pts`, the physical fiber radius `offset` and the oracle `o`. -/
def analyzeThroat (pts : List (ℚ × ℚ)) (offset : ℚ) (o : TOracle) : TResult :=
  let f := scaleFOf pts
  let r := scaledROf pts offset
  if r ≤ 200 / 2 then
    if 3 ≤ survivorCount o.hullPix (padDimM pts) (padDimN pts) r then
      if o.regionCount = 1 then
        let offs := dedupOffsets o.rpCoords (intPtsOf pts)
        if 3 ≤ offs.length then
          let tr := transOf pts
          { area := o.rpArea / (f * f)
            perimeter := o.rpPerimeter / f
            equivDiameter := o.rpEquivDiam / f
            inradius := o.dtMax / f
            centroid := o.unrot
              (o.rpCentroid.1 / f + tr.1, o.rpCentroid.2 / f + tr.2, o.zplane)
            incenter := o.unrot
              (o.dtArgmax.1 / f + tr.1, o.dtArgmax.2 / f + tr.2, o.zplane)
            offsetVerts := some (offs.map fun idx =>
              let c := o.rpCoords.getD idx (0, 0)
              o.unrot ((c.1 : ℚ) / f + tr.1, (c.2 : ℚ) / f + tr.2, o.zplane)) }
        else zeroTResult
      else zeroTResult
    else zeroTResult
  else zeroTResult

/-! ## GeometryAggregator: `DelaunayGeometry._throat_c2c` and the
conduit-length storage of `__init__` (lines 196-201)

`net["pore.centroid"]` / `net["throat.centroid"]` rows can be `NaN`
(geometry missing for a pore); a whole-row `NaN` centroid is modelled as
`none`.  `np.linalg.norm` is an external call: the embedding is
parametrised by `norm3 : V3 → ℚ`.

    v1 = t_cen - p_cen[p1]; v2 = t_cen - p_cen[p2]
    check_nan = ~np.any(np.isnan(v1 + v2), axis=1)
    value = np.ones([Nt, 3]) * np.nan
    if check_nan[i]:
        value[i, 0] = norm(v1[i]) - fiber_rad
        value[i, 1] = fiber_rad * 2
        value[i, 2] = norm(v2[i]) - fiber_rad

and then, in `__init__`:

    cen_lens[cen_lens <= 0.0] = 1e-12   -- NaN <= 0 is False: NaN rows stay
-/

/-- `NaN`-propagating vector subtraction. -/
def nanSub (a b : Option V3) : Option V3 :=
  Option.map₂ vsub3 a b

/-- `NaN`-propagating vector addition. -/
def nanAdd (a b : Option V3) : Option V3 :=
  Option.map₂ vadd3 a b

/-- One row of `_throat_c2c`: the triple
(`pore1`-to-throat, throat span, throat-to-`pore2`), `none` = `NaN`. -/
def throatC2CRow (norm3 : V3 → ℚ) (fiber_rad : ℚ)
    (pcen1 pcen2 tcen : Option V3) : Option ℚ × Option ℚ × Option ℚ :=
  let v1 := nanSub tcen pcen1
  let v2 := nanSub tcen pcen2
  if (nanAdd v1 v2).isNone then (none, none, none)
  else
    (some (norm3 (v1.getD (0, 0, 0)) - fiber_rad),
     some (fiber_rad * 2),
     some (norm3 (v2.getD (0, 0, 0)) - fiber_rad))

/-- `cen_lens[cen_lens <= 0.0] = 1e-12` on one entry: `NaN` entries fail
the `<= 0.0` comparison and pass through. -/
def clampTiny (v : Option ℚ) : Option ℚ :=
  match v with
  | some q => if q ≤ 0 then some (1 / 10 ^ 12) else some q
  | none => none

/-- The stored `throat.conduit_lengths.(pore1, throat, pore2)` triple. -/
def storedConduit (norm3 : V3 → ℚ) (fiber_rad : ℚ)
    (pcen1 pcen2 tcen : Option V3) : Option ℚ × Option ℚ × Option ℚ :=
  let row := throatC2CRow norm3 fiber_rad pcen1 pcen2 tcen
  (clampTiny row.1, clampTiny row.2.1, clampTiny row.2.2)

/-! ## Concrete instances used by the witnesses -/

/-- A regular tetrahedron-shaped pore in voxel units, with the simplex
list `scipy.spatial.ConvexHull` returns for it. -/
def tetraPore : PoreData :=
  { label := 0
    xyz := [(0, 0, 0), (4, 0, 0), (0, 4, 0), (0, 0, 4)]
    simplices := [(0, 1, 2), (0, 1, 3), (0, 2, 3), (1, 2, 3)] }

/-- A throat oracle with empty image data. -/
def oracle0 : TOracle :=
  { hullPix := [], regionCount := 0, rpCentroid := (0, 0),
    rpEquivDiam := 0, rpArea := 0, rpPerimeter := 0, rpCoords := [],
    dtMax := 0, dtArgmax := (0, 0), zplane := 0, unrot := id }

/-! ## Helper lemmas -/

/-- Bridge for the square-root-free distance comparisons: for the exact
squared distance `s`, the float comparison `sqrt s ≤ r` of
`distance_transform_edt` output with a threshold is `0 ≤ r ∧ s ≤ r ^ 2`. -/
theorem sqrt_le_iff_sq_le (s : ℤ) (r : ℝ) :
    Real.sqrt (s : ℝ) ≤ r ↔ 0 ≤ r ∧ (s : ℝ) ≤ r ^ 2 :=
  Real.sqrt_le_iff

/-- Bridge for `facetPass`: with `m = |n| > 0` the square-root-free
condition `0 ≤ d ∨ d² ≤ t²·m²` is the code's `d / m ≥ -t`, i.e.
`dot(x, N) - dot(a, N) ≥ -tol` for the unit normal `N = n / |n|`. -/
theorem halfspace_encoding (d t m : ℝ) (hm : 0 < m) (ht : 0 ≤ t) :
    (0 ≤ d ∨ d ^ 2 ≤ t ^ 2 * m ^ 2) ↔ -t ≤ d / m := by
  rw [le_div_iff₀ hm]
  constructor
  · rintro (h | h)
    · nlinarith
    · nlinarith [sq_nonneg (d + t * m), mul_nonneg ht hm.le]
  · intro h
    rcases le_or_lt 0 d with hd | hd
    · exact Or.inl hd
    · right
      nlinarith

theorem floor_le_roundHalfEven (q : ℚ) : ⌊q⌋ ≤ roundHalfEven q := by
  unfold roundHalfEven
  split_ifs <;> omega

theorem roundHalfEven_le_floor_add_one (q : ℚ) :
    roundHalfEven q ≤ ⌊q⌋ + 1 := by
  unfold roundHalfEven
  split_ifs <;> omega

theorem roundHalfEven_mono {p q : ℚ} (h : p ≤ q) :
    roundHalfEven p ≤ roundHalfEven q := by
  have hf : ⌊p⌋ ≤ ⌊q⌋ := Int.floor_le_floor h
  rcases lt_or_eq_of_le hf with hlt | heq
  · calc roundHalfEven p ≤ ⌊p⌋ + 1 := roundHalfEven_le_floor_add_one p
    _ ≤ ⌊q⌋ := by omega
    _ ≤ roundHalfEven q := floor_le_roundHalfEven q
  · have hfr : p - (⌊p⌋ : ℚ) ≤ q - (⌊p⌋ : ℚ) := by linarith
    unfold roundHalfEven
    rw [← heq]
    split_ifs <;> first | omega | linarith

theorem fiberVal_eq_zero_iff (old : ℕ) (d : ℚ) (r : ℤ) :
    fiberVal old d r = 0 ↔ d ≤ (r : ℚ) := by
  unfold fiberVal
  rcases le_or_lt d (r : ℚ) with h | h
  · simp [h, not_lt.mpr h]
  · simp [h, not_le.mpr h]

theorem fiberVal_eq_one_iff (old : ℕ) (d : ℚ) (r : ℤ) :
    fiberVal old d r = 1 ↔ (r : ℚ) < d := by
  unfold fiberVal
  rcases le_or_lt d (r : ℚ) with h | h
  · simp [h, not_lt.mpr h]
  · simp [h, not_le.mpr h]

theorem clampTiny_pos (v : Option ℚ) (q : ℚ) (h : clampTiny v = some q) :
    0 < q := by
  match v with
  | none => simp [clampTiny] at h
  | some x =>
    simp only [clampTiny] at h
    split_ifs at h with hx
    · cases h
      norm_num
    · cases h
      exact lt_of_not_le hx

/-! ## The claims -/

/-- C3: the fiber-space builder converts the physical fiber radius to
voxel units as `r = round((fiber_rad - resolution/2) / resolution)`
(`numpy.around`, ties to even), classifies a voxel fiber-phase exactly
when its distance-transform value `d` is `≤ r` and pore-phase exactly when
`d > r`, and retains `max(d - r, 0)` as the distance field. -/
theorem fiber_radius_conversion_and_classification (old : ℕ)
    (d fiber_rad vox_len : ℚ) :
    fiberRadVoxels fiber_rad vox_len =
        roundHalfEven ((fiber_rad - vox_len / 2) / vox_len) ∧
    (fiberVal old d (fiberRadVoxels fiber_rad vox_len) = 0 ↔
        d ≤ (fiberRadVoxels fiber_rad vox_len : ℚ)) ∧
    (fiberVal old d (fiberRadVoxels fiber_rad vox_len) = 1 ↔
        (fiberRadVoxels fiber_rad vox_len : ℚ) < d) ∧
    dtVal d (fiberRadVoxels fiber_rad vox_len) =
        max (d - (fiberRadVoxels fiber_rad vox_len : ℚ)) 0 := by
  refine ⟨rfl, fiberVal_eq_zero_iff _ _ _, fiberVal_eq_one_iff _ _ _, ?_⟩
  unfold dtVal
  rcases le_or_lt 0 (d - (fiberRadVoxels fiber_rad vox_len : ℚ)) with h | h
  · rw [if_neg (not_lt.mpr h), max_eq_left h]
  · rw [if_pos h, max_eq_right h.le]

/-- C8: for a fixed seed set (hence a fixed distance-transform value `d`
at the voxel) and fixed resolution, fiber-phase classification is monotone
in the fiber radius: a voxel fiber-phase at radius `fr1 ≤ fr2` is also
fiber-phase at `fr2`. -/
theorem fiber_phase_monotone_in_radius (old1 old2 : ℕ) (d fr1 fr2 res : ℚ)
    (hres : 0 < res) (h12 : fr1 ≤ fr2)
    (h1 : fiberVal old1 d (fiberRadVoxels fr1 res) = 0) :
    fiberVal old2 d (fiberRadVoxels fr2 res) = 0 := by
  rw [fiberVal_eq_zero_iff] at h1 ⊢
  have hrr : fiberRadVoxels fr1 res ≤ fiberRadVoxels fr2 res := by
    apply roundHalfEven_mono
    apply div_le_div_of_nonneg_right ?_ hres.le
    linarith
  have : ((fiberRadVoxels fr1 res : ℤ) : ℚ) ≤ (fiberRadVoxels fr2 res : ℚ) :=
    Int.cast_le.mpr hrr
  linarith

/-- Witness for C8 at `res = 1`, `fr1 = 1`, `fr2 = 2`, `d = 0`. -/
theorem fiber_phase_monotone_in_radius_witness :
    (0 : ℚ) < 1 ∧ (1 : ℚ) ≤ 2 ∧ fiberVal 0 0 (fiberRadVoxels 1 1) = 0 ∧
      fiberVal 0 0 (fiberRadVoxels 2 1) = 0 :=
  ⟨by norm_num, by norm_num,
    by norm_num [fiberVal, fiberRadVoxels, roundHalfEven],
    fiber_phase_monotone_in_radius 0 0 0 1 2 1 (by norm_num) (by norm_num)
      (by norm_num [fiberVal, fiberRadVoxels, roundHalfEven])⟩

/-- C9: a seed point whose rounded voxel index lies outside the bounds of
the seed volume is dropped: the `IndexError` is caught (the pass is not
aborted) and no voxel of the volume is marked.  The hypothesis that the
index is componentwise nonnegative holds for every point the pipeline
produces (`_bresenham` interpolates vertices that were translated to have
their minimum at the origin, so `line_ints` is nonnegative); for a
negative index `numpy` would instead wrap around, which this embedding
(`markSeed`) models faithfully.  The warning log entry is a side effect
outside the state modelled here. -/
theorem oob_seed_point_dropped (dims : ℕ × ℕ × ℕ) (img : Cell → ℕ) (p : Cell)
    (hnn : 0 ≤ p.1 ∧ 0 ≤ p.2.1 ∧ 0 ≤ p.2.2)
    (hoob : ¬ inBounds dims p) :
    markSeed dims img p = img := by
  unfold markSeed
  rw [if_neg]
  intro hr
  simp only [inNpRange, Bool.and_eq_true, decide_eq_true_eq] at hr
  exact hoob ⟨⟨hnn.1, hr.1.1.2⟩, ⟨hnn.2.1, hr.1.2.2⟩, ⟨hnn.2.2, hr.2.2⟩⟩

/-- Witness for C9: the point `(5, 0, 0)` is outside a `2 × 2 × 2` volume
and leaves it unchanged. -/
theorem oob_seed_point_dropped_witness :
    markSeed (2, 2, 2) (fun _ => 1) (5, 0, 0) = fun _ => 1 :=
  oob_seed_point_dropped (2, 2, 2) (fun _ => 1) (5, 0, 0) (by decide)
    (by decide)

/-- C6: when both adjacent pore centroids and the throat centroid are
defined, `_throat_c2c` produces
`(|t - p1| - fiber_rad, 2 * fiber_rad, |t - p2| - fiber_rad)`
(`norm3` is `numpy.linalg.norm`, an external call); when any of the three
centroids is undefined (`NaN`), all three components are the undefined
marker and `fiber_rad` is not subtracted. -/
theorem throat_c2c_decomposition (norm3 : V3 → ℚ) (fiber_rad : ℚ)
    (pc1 pc2 tc : Option V3) :
    (∀ a b t, pc1 = some a → pc2 = some b → tc = some t →
      throatC2CRow norm3 fiber_rad pc1 pc2 tc =
        (some (norm3 (vsub3 t a) - fiber_rad), some (fiber_rad * 2),
         some (norm3 (vsub3 t b) - fiber_rad))) ∧
    ((pc1 = none ∨ pc2 = none ∨ tc = none) →
      throatC2CRow norm3 fiber_rad pc1 pc2 tc = (none, none, none)) := by
  constructor
  · intro a b t h1 h2 h3
    subst h1; subst h2; subst h3
    simp [throatC2CRow, nanSub, nanAdd, Option.map₂]
  · rintro (h | h | h)
    · subst h
      cases pc2 <;> cases tc <;> simp [throatC2CRow, nanSub, nanAdd, Option.map₂]
    · subst h
      cases pc1 <;> cases tc <;> simp [throatC2CRow, nanSub, nanAdd, Option.map₂]
    · subst h
      cases pc1 <;> cases pc2 <;>
        simp [throatC2CRow, nanSub, nanAdd, Option.map₂]

/-- Witness for C6 in the defined case. -/
theorem throat_c2c_decomposition_witness :
    throatC2CRow (fun _ => 0) 1 (some (0, 0, 0)) (some (0, 0, 0))
        (some (0, 0, 0)) =
      (some (0 - 1), some (1 * 2), some (0 - 1)) :=
  (throat_c2c_decomposition (fun _ => 0) 1 (some (0, 0, 0)) (some (0, 0, 0))
      (some (0, 0, 0))).1 (0, 0, 0) (0, 0, 0) (0, 0, 0) rfl rfl rfl

/-- C10: every stored `throat.conduit_lengths` component that is defined
(numeric, not the `NaN` marker) is strictly positive: the masked write
`cen_lens[cen_lens <= 0.0] = 1e-12` replaces nonpositive components
before storage. -/
theorem stored_conduit_lengths_positive (norm3 : V3 → ℚ) (fiber_rad : ℚ)
    (pc1 pc2 tc : Option V3) (q : ℚ) :
    ((storedConduit norm3 fiber_rad pc1 pc2 tc).1 = some q → 0 < q) ∧
    ((storedConduit norm3 fiber_rad pc1 pc2 tc).2.1 = some q → 0 < q) ∧
    ((storedConduit norm3 fiber_rad pc1 pc2 tc).2.2 = some q → 0 < q) :=
  ⟨clampTiny_pos _ q, clampTiny_pos _ q, clampTiny_pos _ q⟩

/-- Witness for C10: a conduit whose `pore1` component computes to
`0 - 1 ≤ 0` stores the positive `1e-12`. -/
theorem stored_conduit_lengths_positive_witness :
    (storedConduit (fun _ => 0) 1 (some (0, 0, 0)) (some (0, 0, 0))
        (some (0, 0, 0))).1 = some (1 / 10 ^ 12) ∧ (0 : ℚ) < 1 / 10 ^ 12 := by
  have h : (storedConduit (fun _ => 0) 1 (some (0, 0, 0)) (some (0, 0, 0))
      (some (0, 0, 0))).1 = some (1 / 10 ^ 12) := by
    norm_num [storedConduit, throatC2CRow, nanSub, nanAdd, clampTiny, vsub3,
      Option.map₂]
  exact ⟨h, (stored_conduit_lengths_positive (fun _ => 0) 1 (some (0, 0, 0))
      (some (0, 0, 0)) (some (0, 0, 0)) (1 / 10 ^ 12)).1 h⟩

theorem hullImage_nonneg_of_labeled (tol : ℚ) (g : Cell) :
    ∀ (l : List PoreData) (init : Cell → ℤ),
      ((∃ p ∈ l, inhullLabels tol p g = true) ∨ 0 ≤ init g) →
      0 ≤ (l.foldl (applyPore tol) init) g := by
  intro l
  induction l with
  | nil =>
    intro init h
    rcases h with ⟨p, hp, _⟩ | h
    · exact absurd hp (List.not_mem_nil p)
    · simpa using h
  | cons p t ih =>
    intro init h
    rw [List.foldl_cons]
    apply ih
    rcases h with ⟨q, hq, hlab⟩ | hinit
    · rcases List.mem_cons.mp hq with rfl | hqt
      · right
        simp [applyPore, hlab]
      · left
        exact ⟨q, hqt, hlab⟩
    · right
      by_cases hl : inhullLabels tol p g = true
      · simp [applyPore, hl]
      · simpa [applyPore, hl] using hinit

theorem hullImage_value_cases (tol : ℚ) (g : Cell) :
    ∀ (l : List PoreData) (init : Cell → ℤ),
      (l.foldl (applyPore tol) init) g = init g ∨
        ∃ p ∈ l, (l.foldl (applyPore tol) init) g = (p.label : ℤ) := by
  intro l
  induction l with
  | nil =>
    intro init
    left
    rfl
  | cons p t ih =>
    intro init
    rw [List.foldl_cons]
    rcases ih (applyPore tol init p) with h | ⟨q, hq, hv⟩
    · rw [h]
      by_cases hl : inhullLabels tol p g = true
      · right
        exact ⟨p, List.mem_cons_self p t, by simp [applyPore, hl]⟩
      · left
        simp [applyPore, hl]
    · right
      exact ⟨q, List.mem_cons_of_mem p hq, hv⟩

/-- C1: every voxel that some pore's `inhull` half-space test covers (for
hulls tiling the domain, that is every voxel inside the union of the
hulls) carries some pore's label in the final label volume — the per-pore
labelling already assigns it, and the subsequent maximum-filter fill pass
(`fillStep`) never un-assigns a labelled voxel.  No covered cell remains
at the unassigned marker `-1`. -/
theorem hull_label_coverage (tol : ℚ) (pores : List PoreData) (g : Cell)
    (hcov : ∃ p ∈ pores, inhullLabels tol p g = true) :
    ∃ p ∈ pores, finalHullImage tol pores g = (p.label : ℤ) := by
  have h0 : 0 ≤ hullImage tol pores g :=
    hullImage_nonneg_of_labeled tol g pores _ (Or.inl hcov)
  have hne : hullImage tol pores g ≠ -1 := by omega
  have hfin : finalHullImage tol pores g = hullImage tol pores g := by
    simp [finalHullImage, fillStep, hne]
  rcases hullImage_value_cases tol g pores (fun _ => (-1 : ℤ)) with h | ⟨p, hp, hv⟩
  · exfalso
    have : hullImage tol pores g = -1 := h
    omega
  · exact ⟨p, hp, by rw [hfin]; exact hv⟩

/-- Witness for C1: the tetrahedral pore covers voxel `(1, 1, 1)`, which
therefore carries its label in the final volume. -/
theorem hull_label_coverage_witness :
    ∃ p ∈ [tetraPore], finalHullImage tol7 [tetraPore] (1, 1, 1) =
      (p.label : ℤ) :=
  hull_label_coverage tol7 [tetraPore] (1, 1, 1)
    ⟨tetraPore, List.mem_cons_self _ _, by
      norm_num [inhullLabels, inWindow3, hullSi, hullDims, localPt,
        facetPassCount, hullShifted, hullOrigin, mean3, orientedFacet,
        facetPass, xsOf, ysOf, zsOf, listMin, listMax, vsub3, vadd3, vneg3,
        cross3, dot3, tol7, tetraPore, min_def, max_def, List.countP_cons,
        List.countP_nil, List.foldl]⟩

/-- C7: for a pore hull (with at most 255 facets, so that the `uint8`
facet counter cannot wrap) and a voxel of the pore's local window,
`inhull` labels the voxel for the pore iff every facet's half-space test
passes: `0 ≤ d ∨ d² ≤ tol² * |n|²` with `d = dot(x, n) - dot(a, n)`,
which for the inward unit normal `N = n/|n|` is exactly
`dot(x, N) ≥ dot(a, N) - tol` (see `halfspace_encoding`), at the code's
default tolerance `tol = 1e-7`. -/
theorem inhull_labels_iff_halfspace (p : PoreData) (g : Cell)
    (hlen : p.simplices.length ≤ 255)
    (hwin : inWindow3 (hullSi p.xyz) (hullDims p.xyz) g = true) :
    inhullLabels tol7 p g = true ↔
      ∀ s ∈ p.simplices,
        facetPass tol7 (localPt p g)
          (orientedFacet (hullShifted p.xyz) (mean3 (hullShifted p.xyz)) s)
          = true := by
  unfold inhullLabels
  rw [hwin, Bool.true_and, decide_eq_true_eq]
  unfold facetPassCount
  have hle :
      (p.simplices.countP fun s =>
        facetPass tol7 (localPt p g)
          (orientedFacet (hullShifted p.xyz) (mean3 (hullShifted p.xyz)) s))
        ≤ p.simplices.length :=
    List.countP_le_length _
  rw [Nat.mod_eq_of_lt (by omega)]
  rw [List.countP_eq_length]

/-- Witness for C7 at the tetrahedral pore and voxel `(1, 1, 1)`. -/
theorem inhull_labels_iff_halfspace_witness :
    inhullLabels tol7 tetraPore (1, 1, 1) = true ↔
      ∀ s ∈ tetraPore.simplices,
        facetPass tol7 (localPt tetraPore (1, 1, 1))
          (orientedFacet (hullShifted tetraPore.xyz)
            (mean3 (hullShifted tetraPore.xyz)) s) = true :=
  inhull_labels_iff_halfspace tetraPore (1, 1, 1) (by norm_num [tetraPore])
    (by norm_num [inWindow3, hullSi, hullDims, xsOf, ysOf, zsOf, listMin,
      listMax, tetraPore, min_def, max_def, List.foldl])

/-- C2: the chunked and unchunked fiber-space code paths are NOT
equivalent.  Domain `150 × 1 × 1` voxels, voxel fiber radius `1`, seeds at
`x = 99` and `x = 149`, fallback chunk edge `100`: the unchunked path
classifies voxel `(100, 0, 0)` fiber-phase (distance `1` to the seed at
`99`), but the chunked path cuts the domain at `x = 100` with a `5r` halo
on the high side only; chunk `[100, 150)` cannot see the seed at `x = 99`
and — because each chunk writes its whole window, halo included, and runs
after its predecessor — overwrites the first chunk's correct value with
pore-phase.  This evaluates both code paths at that input. -/
theorem chunked_vs_full_divergence :
    getFiberImageFull [(99, 0, 0), (149, 0, 0)] (150, 1, 1) 1 (100, 0, 0)
        = 0 ∧
    getFiberImageChunked [(99, 0, 0), (149, 0, 0)] (150, 1, 1) 100 1
        (100, 0, 0) = 1 := by
  constructor <;> decide

theorem foldl_max_map_mul (f : ℚ) (hf : 0 ≤ f) :
    ∀ (l : List ℚ) (a : ℚ),
      (l.map fun x => f * x).foldl max (f * a) = f * l.foldl max a := by
  intro l
  induction l with
  | nil => intro a; rfl
  | cons x xs ih =>
    intro a
    simp only [List.map_cons, List.foldl_cons]
    rw [← mul_max_of_nonneg a x hf]
    exact ih (max a x)

theorem foldl_min_map_mul (f : ℚ) (hf : 0 ≤ f) :
    ∀ (l : List ℚ) (a : ℚ),
      (l.map fun x => f * x).foldl min (f * a) = f * l.foldl min a := by
  intro l
  induction l with
  | nil => intro a; rfl
  | cons x xs ih =>
    intro a
    simp only [List.map_cons, List.foldl_cons]
    rw [← mul_min_of_nonneg a x hf]
    exact ih (min a x)

theorem foldl_max_map_sub (c : ℚ) :
    ∀ (l : List ℚ) (a : ℚ),
      (l.map fun x => x - c).foldl max (a - c) = l.foldl max a - c := by
  intro l
  induction l with
  | nil => intro a; rfl
  | cons x xs ih =>
    intro a
    simp only [List.map_cons, List.foldl_cons]
    rw [max_sub_sub_right a x c]
    exact ih (max a x)

theorem foldl_min_map_sub (c : ℚ) :
    ∀ (l : List ℚ) (a : ℚ),
      (l.map fun x => x - c).foldl min (a - c) = l.foldl min a - c := by
  intro l
  induction l with
  | nil => intro a; rfl
  | cons x xs ih =>
    intro a
    simp only [List.map_cons, List.foldl_cons]
    rw [min_sub_sub_right a x c]
    exact ih (min a x)

theorem listMax_map_mul (f : ℚ) (hf : 0 ≤ f) (l : List ℚ) :
    listMax (l.map fun x => f * x) = f * listMax l := by
  cases l with
  | nil => simp [listMax]
  | cons x xs =>
    simp only [List.map_cons, listMax]
    exact foldl_max_map_mul f hf xs x

theorem listMin_map_mul (f : ℚ) (hf : 0 ≤ f) (l : List ℚ) :
    listMin (l.map fun x => f * x) = f * listMin l := by
  cases l with
  | nil => simp [listMin]
  | cons x xs =>
    simp only [List.map_cons, listMin]
    exact foldl_min_map_mul f hf xs x

theorem listMax_map_sub (c : ℚ) (l : List ℚ) (h : l ≠ []) :
    listMax (l.map fun x => x - c) = listMax l - c := by
  cases l with
  | nil => exact absurd rfl h
  | cons x xs =>
    simp only [List.map_cons, listMax]
    exact foldl_max_map_sub c xs x

theorem listMin_map_sub (c : ℚ) (l : List ℚ) (h : l ≠ []) :
    listMin (l.map fun x => x - c) = listMin l - c := by
  cases l with
  | nil => exact absurd rfl h
  | cons x xs =>
    simp only [List.map_cons, listMin]
    exact foldl_min_map_sub c xs x

theorem ptsT_map_fst (pts : List (ℚ × ℚ)) :
    (ptsT pts).map (fun p => p.1) =
      (pts.map fun p => p.1).map fun x => x - (transOf pts).1 := by
  simp [ptsT, List.map_map, Function.comp]

theorem ptsT_map_snd (pts : List (ℚ × ℚ)) :
    (ptsT pts).map (fun p => p.2) =
      (pts.map fun p => p.2).map fun x => x - (transOf pts).2 := by
  simp [ptsT, List.map_map, Function.comp]

theorem ptsS_map_fst (pts : List (ℚ × ℚ)) :
    (ptsS pts).map (fun p => p.1) =
      ((ptsT pts).map fun p => p.1).map fun x => scaleFOf pts * x := by
  simp [ptsS, List.map_map, Function.comp]

theorem ptsS_map_snd (pts : List (ℚ × ℚ)) :
    (ptsS pts).map (fun p => p.2) =
      ((ptsT pts).map fun p => p.2).map fun x => scaleFOf pts * x := by
  simp [ptsS, List.map_map, Function.comp]

theorem scaleFOf_nonneg {pts : List (ℚ × ℚ)} (hmf : 0 < maxFactorOf pts) :
    0 ≤ scaleFOf pts := by
  unfold scaleFOf
  positivity

theorem scaled_span_fst_le (pts : List (ℚ × ℚ)) (hmf : 0 < maxFactorOf pts) :
    listMax ((ptsS pts).map fun p => p.1) -
      listMin ((ptsS pts).map fun p => p.1) ≤ 200 := by
  have hf : 0 ≤ scaleFOf pts := scaleFOf_nonneg hmf
  cases hpts : pts.map (fun p : ℚ × ℚ => p.1) with
  | nil =>
    have : pts = [] := by
      cases pts with
      | nil => rfl
      | cons a l => simp at hpts
    subst this
    simp [ptsS, ptsT, listMax, listMin]
  | cons x xs =>
    have hne : pts.map (fun p : ℚ × ℚ => p.1) ≠ [] := by
      rw [hpts]
      exact List.cons_ne_nil x xs
    rw [ptsS_map_fst, listMax_map_mul _ hf, listMin_map_mul _ hf,
      ptsT_map_fst, listMax_map_sub _ _ hne, listMin_map_sub _ _ hne]
    have hmin0 :
        listMin (pts.map fun p : ℚ × ℚ => p.1) - (transOf pts).1 = 0 := by
      simp [transOf]
    rw [hmin0, mul_zero, sub_zero]
    have hAle :
        listMax (pts.map fun p : ℚ × ℚ => p.1) - (transOf pts).1 ≤
          maxFactorOf pts := by
      unfold maxFactorOf
      rw [ptsT_map_fst, listMax_map_sub _ _ hne]
      exact le_max_left _ _
    calc scaleFOf pts *
        (listMax (pts.map fun p : ℚ × ℚ => p.1) - (transOf pts).1)
        ≤ scaleFOf pts * maxFactorOf pts :=
          mul_le_mul_of_nonneg_left hAle hf
    _ = 200 := by
        unfold scaleFOf
        exact div_mul_cancel₀ 200 hmf.ne'

theorem scaled_span_snd_le (pts : List (ℚ × ℚ)) (hmf : 0 < maxFactorOf pts) :
    listMax ((ptsS pts).map fun p => p.2) -
      listMin ((ptsS pts).map fun p => p.2) ≤ 200 := by
  have hf : 0 ≤ scaleFOf pts := scaleFOf_nonneg hmf
  cases hpts : pts.map (fun p : ℚ × ℚ => p.2) with
  | nil =>
    have : pts = [] := by
      cases pts with
      | nil => rfl
      | cons a l => simp at hpts
    subst this
    simp [ptsS, ptsT, listMax, listMin]
  | cons x xs =>
    have hne : pts.map (fun p : ℚ × ℚ => p.2) ≠ [] := by
      rw [hpts]
      exact List.cons_ne_nil x xs
    rw [ptsS_map_snd, listMax_map_mul _ hf, listMin_map_mul _ hf,
      ptsT_map_snd, listMax_map_sub _ _ hne, listMin_map_sub _ _ hne]
    have hmin0 :
        listMin (pts.map fun p : ℚ × ℚ => p.2) - (transOf pts).2 = 0 := by
      simp [transOf]
    rw [hmin0, mul_zero, sub_zero]
    have hAle :
        listMax (pts.map fun p : ℚ × ℚ => p.2) - (transOf pts).2 ≤
          maxFactorOf pts := by
      unfold maxFactorOf
      rw [ptsT_map_snd, listMax_map_sub _ _ hne]
      exact le_max_right _ _
    calc scaleFOf pts *
        (listMax (pts.map fun p : ℚ × ℚ => p.2) - (transOf pts).2)
        ≤ scaleFOf pts * maxFactorOf pts :=
          mul_le_mul_of_nonneg_left hAle hf
    _ = 200 := by
        unfold scaleFOf
        exact div_mul_cancel₀ 200 hmf.ne'

theorem padDimM_le_203 (pts : List (ℚ × ℚ)) (hmf : 0 < maxFactorOf pts) :
    padDimM pts ≤ 203 := by
  unfold padDimM
  have h := scaled_span_fst_le pts hmf
  have h2 :
      (⌈listMax ((ptsS pts).map fun p => p.1) -
          listMin ((ptsS pts).map fun p => p.1)⌉ : ℤ) ≤ 200 :=
    Int.ceil_le.mpr (by exact_mod_cast h)
  omega

theorem padDimN_le_203 (pts : List (ℚ × ℚ)) (hmf : 0 < maxFactorOf pts) :
    padDimN pts ≤ 203 := by
  unfold padDimN
  have h := scaled_span_snd_le pts hmf
  have h2 :
      (⌈listMax ((ptsS pts).map fun p => p.2) -
          listMin ((ptsS pts).map fun p => p.2)⌉ : ℤ) ≤ 200 :=
    Int.ceil_le.mpr (by exact_mod_cast h)
  omega

theorem maxFactor_pos_of_r_large {pts : List (ℚ × ℚ)} {offset : ℚ}
    (hoff : 0 < offset) (hr : 100 ≤ scaledROf pts offset) :
    0 < maxFactorOf pts := by
  by_contra hc
  push_neg at hc
  have hf : scaleFOf pts ≤ 0 := by
    unfold scaleFOf
    rcases lt_or_eq_of_le hc with h | h
    · exact (div_neg_of_pos_of_neg (by norm_num) h).le
    · rw [h, div_zero]
  have hrle : scaledROf pts offset ≤ 0 := by
    unfold scaledROf
    exact mul_nonpos_iff.mpr (Or.inr ⟨hf, hoff.le⟩)
  linarith

theorem mem_pixList {M N : ℤ} {p : ℤ × ℤ} :
    p ∈ pixList M N ↔ (0 ≤ p.1 ∧ p.1 < M) ∧ (0 ≤ p.2 ∧ p.2 < N) := by
  unfold pixList
  constructor
  · intro h
    rcases List.mem_map.mp h with ⟨⟨a, b⟩, hab, hpe⟩
    rcases List.mem_product.mp hab with ⟨ha, hb⟩
    rw [List.mem_range] at ha hb
    subst hpe
    constructor <;> constructor <;> simp <;> omega
  · rintro ⟨⟨h1, h2⟩, h3, h4⟩
    apply List.mem_map.mpr
    refine ⟨(p.1.toNat, p.2.toNat), ?_, ?_⟩
    · apply List.mem_product.mpr
      rw [List.mem_range, List.mem_range]
      omega
    · cases p
      simp only [Prod.mk.injEq]
      omega

theorem pixList_nodup (M N : ℤ) : (pixList M N).Nodup := by
  unfold pixList
  apply List.Nodup.map
  · intro a b hab
    cases a
    cases b
    simp only [Prod.mk.injEq, Int.natCast_inj] at hab
    simp [Prod.ext_iff, hab.1, hab.2]
  · exact (List.nodup_range _).product (List.nodup_range _)

theorem length_le_one_of_nodup_all_eq {α : Type} (l : List α) (hnd : l.Nodup)
    (a : α) (h : ∀ x ∈ l, x = a) : l.length ≤ 1 := by
  match l with
  | [] => simp
  | [x] => simp
  | x :: y :: t =>
    exfalso
    have hx := h x (by simp)
    have hy := h y (by simp)
    have hxy : x = y := by rw [hx, hy]
    have hmem : x ∈ y :: t := by rw [hxy]; exact List.mem_cons_self y t
    exact (List.nodup_cons.mp hnd).1 hmem

theorem isSurvivor_spec {hull : List (ℤ × ℤ)} {M N : ℤ} {r : ℚ} {p b : ℤ × ℤ}
    (hs : isSurvivor hull M N r p = true) (hb : b ∈ pixList M N) :
    b ∈ hull ∨ r < 0 ∨ r ^ 2 < ((sqd2 p b : ℤ) : ℚ) := by
  unfold isSurvivor at hs
  rw [List.all_eq_true] at hs
  simpa [Bool.or_eq_true, decide_eq_true_eq, or_assoc] using hs b hb

theorem sq_gt_10000 {k : ℤ} (h0 : 0 ≤ k) (h : (10000 : ℤ) < k ^ 2) :
    101 ≤ k := by
  by_contra hc
  push_neg at hc
  have hk : k ^ 2 ≤ 100 ^ 2 := pow_le_pow_left₀ h0 (by omega) 2
  norm_num at hk
  omega

theorem survivor_count_le_one (hull : List (ℤ × ℤ)) (M N : ℤ) (r : ℚ)
    (hM : M ≤ 203) (hN : N ≤ 203) (hr : 100 ≤ r)
    (hint : ∀ q ∈ hull,
      (1 ≤ q.1 ∧ q.1 ≤ M - 2) ∧ (1 ≤ q.2 ∧ q.2 ≤ N - 2)) :
    survivorCount hull M N r ≤ 1 := by
  unfold survivorCount
  apply length_le_one_of_nodup_all_eq _ ((pixList_nodup M N).filter _)
    ((101 : ℤ), (101 : ℤ))
  intro p hp
  rw [List.mem_filter] at hp
  obtain ⟨hpin, hps⟩ := hp
  obtain ⟨⟨hp10, hp1M⟩, hp20, hp2N⟩ := mem_pixList.mp hpin
  have hrpos : ¬ r < 0 := by linarith
  have hr2 : (10000 : ℚ) ≤ r ^ 2 := by nlinarith
  have key : ∀ b : ℤ × ℤ, b ∈ pixList M N → b ∉ hull →
      (10000 : ℤ) < sqd2 p b := by
    intro b hbin hbh
    rcases isSurvivor_spec hps hbin with h | h | h
    · exact absurd h hbh
    · exact absurd h hrpos
    · exact_mod_cast lt_of_le_of_lt hr2 h
  have k1 : (10000 : ℤ) < sqd2 p (0, p.2) := by
    apply key
    · exact mem_pixList.mpr ⟨⟨le_refl 0, by omega⟩, hp20, hp2N⟩
    · intro hmem
      have := (hint _ hmem).1.1
      simp at this
  have k2 : (10000 : ℤ) < sqd2 p (M - 1, p.2) := by
    apply key
    · exact mem_pixList.mpr ⟨⟨by omega, by omega⟩, hp20, hp2N⟩
    · intro hmem
      have := (hint _ hmem).1.2
      simp at this
      omega
  have k3 : (10000 : ℤ) < sqd2 p (p.1, 0) := by
    apply key
    · exact mem_pixList.mpr ⟨⟨hp10, hp1M⟩, le_refl 0, by omega⟩
    · intro hmem
      have := (hint _ hmem).2.1
      simp at this
  have k4 : (10000 : ℤ) < sqd2 p (p.1, N - 1) := by
    apply key
    · exact mem_pixList.mpr ⟨⟨hp10, hp1M⟩, by omega, by omega⟩
    · intro hmem
      have := (hint _ hmem).2.2
      simp at this
      omega
  have e1 : sqd2 p (0, p.2) = p.1 ^ 2 := by simp [sqd2]
  have e2 : sqd2 p (M - 1, p.2) = (M - 1 - p.1) ^ 2 := by
    simp [sqd2]
    ring
  have e3 : sqd2 p (p.1, 0) = p.2 ^ 2 := by simp [sqd2]
  have e4 : sqd2 p (p.1, N - 1) = (N - 1 - p.2) ^ 2 := by
    simp [sqd2]
    ring
  rw [e1] at k1
  rw [e2] at k2
  rw [e3] at k3
  rw [e4] at k4
  have b1 := sq_gt_10000 hp10 k1
  have b2 := sq_gt_10000 (by omega) k2
  have b3 := sq_gt_10000 hp20 k3
  have b4 := sq_gt_10000 (by omega) k4
  have : p.1 = 101 ∧ p.2 = 101 := by omega
  cases p
  simp only [Prod.mk.injEq]
  exact this

theorem survivorCount_nil_hull (M N : ℤ) (r : ℚ) (hr : 0 ≤ r) :
    survivorCount [] M N r = 0 := by
  unfold survivorCount
  rw [List.length_eq_zero, List.filter_eq_nil_iff]
  intro p hp hs
  rcases isSurvivor_spec hs hp with h | h | h
  · exact absurd h (List.not_mem_nil p)
  · linarith
  · have hz : sqd2 p p = 0 := by simp [sqd2]
    rw [hz] at h
    push_cast at h
    nlinarith

/-- C4: a throat whose scaled fiber radius `r = f * offset`
(`f = 200 / max_factor`) exceeds half the raster size `200` is
short-circuited to the occluded zero result: area `0`, perimeter `0`,
indiameter `0` (`inradius = 0`), and no offset vertices; and at the
boundary `r = 100` of the spec's `r ≥ s/2` reading the erosion leaves at
most one surviving pixel (every background probe from the padded border is
within distance `≤ 101`), so the `< 3`-survivors check produces the same
zero result.  The hypothesis on `o.hullPix` states that
`convex_hull_image` of the one-pixel-padded raster only marks interior
pixels, which holds for the external call by construction. -/
theorem occluded_when_radius_exceeds_half (pts : List (ℚ × ℚ)) (offset : ℚ)
    (o : TOracle) (hoff : 0 < offset)
    (hr : 100 ≤ scaledROf pts offset)
    (hhull : ∀ q ∈ o.hullPix,
      (1 ≤ q.1 ∧ q.1 ≤ padDimM pts - 2) ∧
        (1 ≤ q.2 ∧ q.2 ≤ padDimN pts - 2)) :
    analyzeThroat pts offset o = zeroTResult := by
  have hmf := maxFactor_pos_of_r_large hoff hr
  simp only [analyzeThroat]
  rcases le_or_lt (scaledROf pts offset) ((200 : ℚ) / 2) with hle | hgt
  · rw [if_pos hle]
    have hcnt := survivor_count_le_one o.hullPix (padDimM pts) (padDimN pts)
      (scaledROf pts offset) (padDimM_le_203 pts hmf) (padDimN_le_203 pts hmf)
      hr hhull
    rw [if_neg (by omega)]
  · rw [if_neg (not_le.mpr hgt)]

/-- Witness for C4: the unit square facet with physical fiber radius `1`
scales to `r = 200 > 100` and yields the zero result. -/
theorem occluded_when_radius_exceeds_half_witness :
    (0 : ℚ) < 1 ∧ 100 ≤ scaledROf [(0, 0), (1, 0), (0, 1), (1, 1)] 1 ∧
      analyzeThroat [(0, 0), (1, 0), (0, 1), (1, 1)] 1 oracle0 =
        zeroTResult := by
  have hr : (100 : ℚ) ≤ scaledROf [(0, 0), (1, 0), (0, 1), (1, 1)] 1 := by
    norm_num [scaledROf, scaleFOf, maxFactorOf, ptsT, transOf, listMin,
      listMax, min_def, max_def, List.foldl]
  exact ⟨by norm_num, hr,
    occluded_when_radius_exceeds_half _ 1 oracle0 (by norm_num) hr
      (by simp [oracle0])⟩

/-- C5: for every throat, `_throat_props` yields either the occluded zero
result or a valid result whose offset polygon has at least 3 vertices —
never 1 or 2; in particular fewer than 3 surviving pixels after erosion,
more than one disjoint region, or fewer than 3 unique offset vertices
each yield the zero result. -/
theorem throat_offset_trichotomy (pts : List (ℚ × ℚ)) (offset : ℚ)
    (o : TOracle) :
    (analyzeThroat pts offset o = zeroTResult ∨
      ∃ l, (analyzeThroat pts offset o).offsetVerts = some l ∧
        3 ≤ l.length) ∧
    (survivorCount o.hullPix (padDimM pts) (padDimN pts)
        (scaledROf pts offset) < 3 →
      analyzeThroat pts offset o = zeroTResult) ∧
    (1 < o.regionCount → analyzeThroat pts offset o = zeroTResult) ∧
    ((dedupOffsets o.rpCoords (intPtsOf pts)).length < 3 →
      analyzeThroat pts offset o = zeroTResult) := by
  simp only [analyzeThroat]
  split_ifs with h1 h2 h3 h4
  · refine ⟨Or.inr ⟨_, rfl, by simpa using h4⟩, ?_, ?_, ?_⟩
    · intro hc
      omega
    · intro hc
      omega
    · intro hc
      omega
  · exact ⟨Or.inl rfl, fun _ => rfl, fun _ => rfl, fun _ => rfl⟩
  · exact ⟨Or.inl rfl, fun _ => rfl, fun _ => rfl, fun _ => rfl⟩
  · exact ⟨Or.inl rfl, fun _ => rfl, fun _ => rfl, fun _ => rfl⟩
  · exact ⟨Or.inl rfl, fun _ => rfl, fun _ => rfl, fun _ => rfl⟩

/-- Witness for C5: the unit square facet with fiber radius `0` and empty
hull image has no surviving pixels, hence the zero result. -/
theorem throat_offset_trichotomy_witness :
    analyzeThroat [(0, 0), (1, 0), (0, 1), (1, 1)] 0 oracle0 =
      zeroTResult := by
  apply (throat_offset_trichotomy [(0, 0), (1, 0), (0, 1), (1, 1)] 0
    oracle0).2.1
  have h0 : scaledROf [(0, 0), (1, 0), (0, 1), (1, 1)] 0 = 0 := by
    simp [scaledROf]
  rw [show oracle0.hullPix = [] from rfl, h0, survivorCount_nil_hull _ _ _
    le_rfl]
  norm_num
